import Mathlib

/-!
Verification of the RAG pipeline and generation-request orchestrator of the
AI-NeXuS application.  The TypeScript sources are embedded shallowly:

* `src/services/ragService.ts` — `chunkText`, `processAndIndexFile`,
  `findRelevantContext`;
* `src/unnamed/part_002` (generation service) — `withRetry`,
  `normalizeGeminiHistory`, `streamOpenAIChatResponse`,
  `streamGeminiChatResponse`.

Strings are modelled as `List Char` (JS strings are sequences of UTF-16 code
units; the claims are insensitive to the unit choice).  The JS cursor in the
chunker is an IEEE double holding integers; it is modelled as `Int` so that
out-of-range parameter combinations behave as in JS.  External collaborators
(the embedding provider, the vector store, `fetch`, the Gemini SDK stream)
are parameters of the embedded functions, as they are in the source's module
boundary.
-/

namespace AINexus

/-! ### JS string primitives -/

/-- Clamp of one argument of `String.prototype.slice`:
negative indices count from the end (clamped at 0), positive ones are clamped
at the length. -/
def jsIdx (len : Nat) (x : Int) : Nat :=
  if x < 0 then ((len : Int) + x).toNat else min x.toNat len

/-- `s.slice(a, b)` of JavaScript on a `List Char`. -/
def jsSlice (s : List Char) (a b : Int) : List Char :=
  (s.take (jsIdx s.length b)).drop (jsIdx s.length a)

/-- `hay.includes(sub)` of JavaScript (substring test). -/
def containsSub (sub : List Char) : List Char → Bool
  | [] => sub.isEmpty
  | c :: rest => sub.isPrefixOf (c :: rest) || containsSub sub rest

/-! ### Chunker — `chunkText` (src/services/ragService.ts, lines 8–20)

```ts
const chunkText = (text: string, chunkSize = 1000, overlap = 200): string[] => {
    const chunks: string[] = [];
    let i = 0;
    while (i < text.length) {
        const end = Math.min(i + chunkSize, text.length);
        chunks.push(text.slice(i, end));
        i += chunkSize - overlap;
        if (i + overlap >= text.length) {
             i = text.length; // exit condition
        }
    }
    return chunks;
};
```

The `while` loop need not terminate for arbitrary parameters (the code
performs no validation), so the loop is embedded with explicit fuel;
`none` means the loop was still running after `fuel` iterations.  For the
parameters the code is actually called with, `text.length + 1` iterations
always suffice (`chunkTextFuel_run`). -/

def chunkTextFuel (text : List Char) (chunkSize overlap : Int) :
    Nat → Int → Option (List (List Char))
  | 0, _ => none
  | fuel + 1, i =>
      if i < (text.length : Int) then
        let en := min (i + chunkSize) (text.length : Int)
        let chunk := jsSlice text i en
        let i2 := i + chunkSize - overlap
        let i3 := if (text.length : Int) ≤ i2 + overlap then (text.length : Int) else i2
        (chunkTextFuel text chunkSize overlap fuel i3).map (fun l => chunk :: l)
      else
        some []

/-- `chunkText(text, chunkSize, overlap)`: run the loop from cursor 0 with
fuel `text.length + 1`. -/
def chunkText (text : List Char) (chunkSize overlap : Int) :
    Option (List (List Char)) :=
  chunkTextFuel text chunkSize overlap (text.length + 1) 0

lemma chunkTextFuel_succ (text : List Char) (cs ov : Int) (n : Nat) (i : Int) :
    chunkTextFuel text cs ov (n + 1) i =
      if i < (text.length : Int) then
        (chunkTextFuel text cs ov n
            (if (text.length : Int) ≤ i + cs - ov + ov then (text.length : Int)
             else i + cs - ov)).map
          (fun l => jsSlice text i (min (i + cs) (text.length : Int)) :: l)
      else some [] := rfl

/-- Main loop invariant of `chunkText` for validated parameters
`0 ≤ overlap < chunkSize`: starting the loop at cursor `i ≥ 0` with more fuel
than remaining characters, the loop terminates and returns the slices of a
list of intervals that covers `[i, length)` without gaps, in document order. -/
lemma chunkTextFuel_run (text : List Char) (cs ov : Int)
    (hov : 0 ≤ ov) (hcs : ov < cs) :
    ∀ (fuel : Nat) (i : Int), 0 ≤ i →
      ((text.length : Int) - i).toNat < fuel →
    ∃ bs : List (Int × Int),
      chunkTextFuel text cs ov fuel i =
        some (bs.map (fun pr => jsSlice text pr.1 pr.2)) ∧
      (∀ p : Int, i ≤ p → p < (text.length : Int) →
        ∃ pr ∈ bs, pr.1 ≤ p ∧ p < pr.2) ∧
      List.Chain' (fun pr qr : Int × Int => qr.1 ≤ pr.2 ∧ pr.1 < qr.1) bs ∧
      (∀ pr ∈ bs, i ≤ pr.1 ∧ pr.1 < (text.length : Int) ∧
        pr.2 = min (pr.1 + cs) (text.length : Int)) ∧
      (bs = [] ∨ ∃ tl, bs = (i, min (i + cs) (text.length : Int)) :: tl) := by
  intro fuel
  induction fuel with
  | zero => intro i h0 hf; omega
  | succ n ih =>
    intro i h0 hf
    by_cases hi : i < (text.length : Int)
    · by_cases hexit : (text.length : Int) ≤ i + cs - ov + ov
      · -- the forced-exit branch: this chunk already reaches the end of text
        have hn : 1 ≤ n := by omega
        obtain ⟨m, hm⟩ : ∃ m, n = m + 1 := ⟨n - 1, by omega⟩
        have hrec : chunkTextFuel text cs ov n (text.length : Int) = some [] := by
          rw [hm, chunkTextFuel_succ, if_neg (lt_irrefl _)]
        refine ⟨[(i, min (i + cs) (text.length : Int))], ?_, ?_, ?_, ?_, ?_⟩
        · rw [chunkTextFuel_succ, if_pos hi, if_pos hexit, hrec]
          rfl
        · intro p hip hpL
          exact ⟨(i, min (i + cs) (text.length : Int)), by simp, hip, by simp; omega⟩
        · simp
        · intro pr hpr
          simp at hpr
          subst hpr
          exact ⟨le_refl i, hi, rfl⟩
        · exact Or.inr ⟨[], rfl⟩
      · -- the loop continues from cursor i + chunkSize - overlap
        have h2L : i + cs - ov < (text.length : Int) := by omega
        obtain ⟨bs', heq', hcov', hchain', hpt', hhd'⟩ :=
          ih (i + cs - ov) (by omega) (by omega)
        refine ⟨(i, min (i + cs) (text.length : Int)) :: bs', ?_, ?_, ?_, ?_, ?_⟩
        · rw [chunkTextFuel_succ, if_pos hi, if_neg hexit, heq']
          rfl
        · intro p hip hpL
          by_cases hpe : p < min (i + cs) (text.length : Int)
          · exact ⟨(i, min (i + cs) (text.length : Int)), by simp, hip, hpe⟩
          · have h1 : i + cs - ov ≤ p := by omega
            obtain ⟨pr, hmem, hle, hlt⟩ := hcov' p h1 hpL
            exact ⟨pr, by simp [hmem], hle, hlt⟩
        · rcases hhd' with h | ⟨tl, htl⟩
          · subst h; simp
          · subst htl
            refine List.Chain'.cons ⟨by omega, by omega⟩ hchain'
        · intro pr hpr
          rcases List.mem_cons.mp hpr with h | h
          · subst h; exact ⟨le_refl i, hi, rfl⟩
          · obtain ⟨ha, hb, hc⟩ := hpt' pr h
            exact ⟨by omega, hb, hc⟩
        · exact Or.inr ⟨bs', rfl⟩
    · refine ⟨[], ?_, ?_, ?_, ?_, ?_⟩
      · rw [chunkTextFuel_succ, if_neg hi]; rfl
      · intro p hip hpL; omega
      · simp
      · intro pr hpr; simp at hpr
      · exact Or.inl rfl

lemma jsIdx_ofNat (len a : Nat) (h : a ≤ len) : jsIdx len (a : Int) = a := by
  unfold jsIdx
  rw [if_neg (by omega)]
  simp
  omega

lemma jsSlice_natCast (s : List Char) (a b : Nat) (ha : a ≤ s.length)
    (hb : b ≤ s.length) :
    jsSlice s (a : Int) (b : Int) = (s.take b).drop a := by
  unfold jsSlice
  rw [jsIdx_ofNat _ _ ha, jsIdx_ofNat _ _ hb]

/-- On a 2500-character text with the default parameters, the loop runs the
cursor through 0, 800, 1600 and then the forced exit condition
(`2400 + 200 ≥ 2500`) ends it, so exactly the three slices
`[0,1000)`, `[800,1800)`, `[1600,2500)` are emitted. -/
lemma chunkText_len2500 (t : List Char) (h : t.length = 2500) :
    chunkText t 1000 200 =
      some [t.take 1000, (t.take 1800).drop 800, t.drop 1600] := by
  have hL : (t.length : Int) = 2500 := by rw [h]; norm_num
  have j1 : jsSlice t (0 : Int) (1000 : Int) = (t.take 1000).drop 0 := by
    exact_mod_cast jsSlice_natCast t 0 1000 (by omega) (by omega)
  have j2 : jsSlice t (800 : Int) (1800 : Int) = (t.take 1800).drop 800 := by
    exact_mod_cast jsSlice_natCast t 800 1800 (by omega) (by omega)
  have j3 : jsSlice t (1600 : Int) (2500 : Int) = (t.take 2500).drop 1600 := by
    exact_mod_cast jsSlice_natCast t 1600 2500 (by omega) (by omega)
  unfold chunkText
  rw [h]
  rw [chunkTextFuel_succ]
  simp only [hL]
  norm_num
  constructor
  · rw [show (2500 : Nat) = 2499 + 1 by norm_num, chunkTextFuel_succ]
    simp only [hL]
    norm_num
    constructor
    · rw [show (2499 : Nat) = 2498 + 1 by norm_num, chunkTextFuel_succ]
      simp only [hL]
      norm_num
      constructor
      · rw [show (2498 : Nat) = 2497 + 1 by norm_num, chunkTextFuel_succ]
        simp only [hL]
        norm_num
      · rw [j3, ← h, List.take_length]
    · rw [j2]
  · rw [j1, List.drop_zero]

/-- A 2500-character sample document. -/
def sample2500 : List Char := List.replicate 2500 'a'

lemma sample2500_length : sample2500.length = 2500 := by
  unfold sample2500
  rw [List.length_replicate]

/-- An 8-character sample text. -/
def abcdefgh : List Char := ['a', 'b', 'c', 'd', 'e', 'f', 'g', 'h']

/-- A 3-character sample text. -/
def abcText : List Char := ['a', 'b', 'c']

/-- A 10-character sample text. -/
def tenAs : List Char := List.replicate 10 'a'

/-- **C1.** For every text and parameters with `0 < overlap < chunkSize`,
`chunkText` terminates and its output is the list of slices of a list of
intervals such that (i) every character position of the text lies in at least
one interval, (ii) there is no gap between consecutive chunks (each interval
starts no later than the previous one ends), and (iii) the chunks appear in
document order (strictly increasing start positions). -/
theorem chunkText_coverage (text : List Char) (cs ov : Int)
    (h1 : 0 < ov) (h2 : ov < cs) :
    ∃ bs : List (Int × Int),
      chunkText text cs ov =
        some (bs.map (fun pr => jsSlice text pr.1 pr.2)) ∧
      (∀ p : Int, 0 ≤ p → p < (text.length : Int) →
        ∃ pr ∈ bs, pr.1 ≤ p ∧ p < pr.2) ∧
      List.Chain' (fun pr qr : Int × Int => qr.1 ≤ pr.2 ∧ pr.1 < qr.1) bs := by
  obtain ⟨bs, ha, hb, hc, -, -⟩ :=
    chunkTextFuel_run text cs ov (le_of_lt h1) h2 (text.length + 1) 0 le_rfl
      (by omega)
  exact ⟨bs, ha, hb, hc⟩

/-- Witness for C1 at the concrete input `chunkText abcdefgh 5 2`. -/
theorem chunkText_coverage_witness :
    (0 : Int) < 2 ∧ (2 : Int) < 5 ∧
    (∃ bs : List (Int × Int),
      chunkText abcdefgh 5 2 =
        some (bs.map (fun pr => jsSlice abcdefgh pr.1 pr.2)) ∧
      (∀ p : Int, 0 ≤ p → p < (abcdefgh.length : Int) →
        ∃ pr ∈ bs, pr.1 ≤ p ∧ p < pr.2) ∧
      List.Chain' (fun pr qr : Int × Int => qr.1 ≤ pr.2 ∧ pr.1 < qr.1) bs) :=
  ⟨by norm_num, by norm_num,
    chunkText_coverage abcdefgh 5 2 (by norm_num) (by norm_num)⟩

lemma isPrefixOf_iff_exists (sub hay : List Char) :
    sub.isPrefixOf hay = true ↔ ∃ r, hay = sub ++ r := by
  induction sub generalizing hay with
  | nil => simp [List.isPrefixOf]
  | cons a as ih =>
    cases hay with
    | nil => simp [List.isPrefixOf]
    | cons b bs =>
      simp only [List.isPrefixOf, Bool.and_eq_true, beq_iff_eq, ih]
      constructor
      · rintro ⟨rfl, r, rfl⟩
        exact ⟨r, rfl⟩
      · rintro ⟨r, hr⟩
        injection hr with h1 h2
        exact ⟨h1.symm, r, h2⟩

lemma containsSub_iff (sub hay : List Char) :
    containsSub sub hay = true ↔ ∃ l r, hay = l ++ sub ++ r := by
  induction hay with
  | nil =>
    simp only [containsSub, List.isEmpty_iff]
    constructor
    · rintro rfl
      exact ⟨[], [], rfl⟩
    · rintro ⟨l, r, hr⟩
      have hlen := congrArg List.length hr
      simp at hlen
      exact List.length_eq_zero.mp (by omega)
  | cons c rest ih =>
    simp only [containsSub, Bool.or_eq_true, isPrefixOf_iff_exists, ih]
    constructor
    · rintro (⟨r, hr⟩ | ⟨l, r, hr⟩)
      · exact ⟨[], r, by simpa using hr⟩
      · exact ⟨c :: l, r, by simp [hr]⟩
    · rintro ⟨l, r, hr⟩
      cases l with
      | nil => exact Or.inl ⟨r, by simpa using hr⟩
      | cons c' l' =>
        injection hr with h1 h2
        exact Or.inr ⟨l', r, h2⟩

/-- **C2 — counterexample.** Chunking a concrete 2500-character document with
chunkSize = 1000 and overlap = 200 yields 3 chunks, not 4: the forced exit
condition ends the loop after the cursor positions 0, 800, 1600 and the chunk
that the plain cursor algorithm would emit at position 2400 is skipped. -/
theorem chunkText_2500_not_four :
    ((chunkText sample2500 1000 200).getD []).length = 3 ∧
    ((chunkText sample2500 1000 200).getD []).length ≠ 4 := by
  have e := chunkText_len2500 sample2500 sample2500_length
  rw [e]
  exact ⟨rfl, by decide⟩

/-- **C2 (amended).** Chunking a 2500-character document with chunkSize = 1000
and overlap = 200 yields exactly three chunks, with the boundaries
`[0,1000)`, `[800,1800)`, `[1600,2500)`: the cursor advances by 800 through
positions 0, 800, 1600, and the termination rule then forces the loop to end
without emitting a fourth chunk at position 2400. -/
theorem chunkText_2500_boundaries (t : List Char) (h : t.length = 2500) :
    chunkText t 1000 200 =
      some [t.take 1000, (t.take 1800).drop 800, t.drop 1600] ∧
    ((chunkText t 1000 200).getD []).length = 3 := by
  have e := chunkText_len2500 t h
  refine ⟨e, ?_⟩
  rw [e]
  rfl

/-- Witness for the amended C2 at the concrete 2500-character document. -/
theorem chunkText_2500_boundaries_witness :
    sample2500.length = 2500 ∧
    (chunkText sample2500 1000 200 =
      some [sample2500.take 1000, (sample2500.take 1800).drop 800,
        sample2500.drop 1600] ∧
     ((chunkText sample2500 1000 200).getD []).length = 3) :=
  ⟨sample2500_length,
    chunkText_2500_boundaries sample2500 sample2500_length⟩

/-- **C3 — counterexample.** The parameters chunkSize = overlap = 5 violate
`chunkSize > overlap ≥ 0`, yet on the 3-character text the chunker terminates
normally and returns the whole text as a single chunk — it performs no
validation and raises no `ConfigError` (the embedding has no error outcome at
all, mirroring the source, whose only outcomes are a returned array or
non-termination). -/
theorem chunkText_invalid_params_returns_output :
    chunkText abcText 5 5 = some [abcText] := by decide

/-- **C3 (amended).** `chunkText` performs no parameter validation and has no
error path.  A call whose parameters violate `chunkSize > overlap ≥ 0` is not
rejected: with chunkSize = overlap = 5, a 3-character text is returned
normally as a single chunk, while on a 10-character text the cursor never
advances and the loop fails to terminate (no iteration bound suffices). -/
theorem chunkText_no_validation :
    chunkText abcText 5 5 = some [abcText] ∧
    ∀ fuel : Nat, chunkTextFuel tenAs 5 5 fuel 0 = none := by
  constructor
  · decide
  · intro fuel
    induction fuel with
    | zero => rfl
    | succ n ih =>
      have hL : (tenAs.length : Int) = 10 := by simp [tenAs]
      rw [chunkTextFuel_succ]
      simp only [hL]
      norm_num
      simpa using ih

/-! ### RetryExecutor — `withRetry` (src/unnamed/part_002, lines 72–113)

```ts
const withRetry = async <T,>(apiCall, maxRetries = 3, initialDelay = 2000) => {
    let attempt = 0;
    while (attempt < maxRetries) {
        try {
            return await apiCall();
        } catch (error: any) {
            let isRateLimitError = false;
            if (error && typeof error.message === 'string') {
                 errorMessage = error.message;
                 if (errorMessage.includes('429') ||
                     errorMessage.includes('RESOURCE_EXHAUSTED')) {
                     isRateLimitError = true;
                 }
            } else if (error instanceof Response &&
                       (error.status === 429 || error.status === 503)) {
                isRateLimitError = true;
            }
            if (isRateLimitError) {
                 if (attempt + 1 >= maxRetries) { throw error; }
                const delay = initialDelay * Math.pow(2, attempt)
                              + Math.random() * 1000;
                await new Promise(resolve => setTimeout(resolve, delay));
                attempt++;
                continue;
            }
            throw error;
        }
    }
    throw new Error('API request failed to complete after all retries.');
};
```

The operation is modelled as a function from the attempt number to an
`Except` outcome, `Math.random() * 1000` as a jitter function from the
attempt number to the sampled value, and the executed trace records the
outcome, the number of calls performed and the list of delays slept.
The loop counter invariant `attempt < maxRetries` is represented by the
remaining-iteration count `fuel = maxRetries - attempt`. -/

/-- A thrown JavaScript value as `withRetry` inspects it: an `Error` (any
object with a string `message` property); a `Response` object (which has no
`message` property, only a numeric `status`); or anything else. -/
inductive JsError where
  | exn (message : List Char)
  | response (status : Nat)
  | other
deriving DecidableEq

/-- The characters of the literal `'429'`. -/
def s429 : List Char := ['4', '2', '9']

/-- The characters of the literal `'RESOURCE_EXHAUSTED'`. -/
def sResourceExhausted : List Char := "RESOURCE_EXHAUSTED".toList

/-- The `isRateLimitError` classification performed in the `catch` block of
`withRetry`. -/
def isRateLimitError : JsError → Bool
  | .exn msg => containsSub s429 msg || containsSub sResourceExhausted msg
  | .response st => st == 429 || st == 503
  | .other => false

/-- How `withRetry` finishes: a returned value, a rethrown error, or the
defensive generic failure after the loop. -/
inductive RetryOutcome (α : Type) where
  | ok (v : α)
  | err (e : JsError)
  | exhausted
deriving DecidableEq

/-- Observable trace of one `withRetry` execution: its outcome, how many
times `apiCall` ran, and the delays slept between attempts, in order. -/
structure RetryTrace (α : Type) where
  outcome : RetryOutcome α
  calls : Nat
  delays : List Nat
deriving DecidableEq

/-- The `while` loop of `withRetry`.  `fuel` is `maxRetries - attempt`, the
number of loop-guard checks `attempt < maxRetries` that can still succeed;
`fuel = 0` is the guard failing, after which the source throws its generic
exhaustion error. -/
def withRetryGo {α : Type} (apiCall : Nat → Except JsError α)
    (maxRetries initialDelay : Nat) (jitter : Nat → Nat) :
    Nat → Nat → RetryTrace α
  | _, 0 => ⟨.exhausted, 0, []⟩
  | attempt, fuel + 1 =>
      match apiCall attempt with
      | .ok v => ⟨.ok v, 1, []⟩
      | .error e =>
          if isRateLimitError e then
            if maxRetries ≤ attempt + 1 then ⟨.err e, 1, []⟩
            else
              let rest :=
                withRetryGo apiCall maxRetries initialDelay jitter
                  (attempt + 1) fuel
              ⟨rest.outcome, rest.calls + 1,
                (initialDelay * 2 ^ attempt + jitter attempt) :: rest.delays⟩
          else ⟨.err e, 1, []⟩

/-- `withRetry(apiCall, maxRetries, initialDelay)` with the jitter samples
supplied by `jitter`. -/
def withRetry {α : Type} (apiCall : Nat → Except JsError α)
    (maxRetries initialDelay : Nat) (jitter : Nat → Nat) : RetryTrace α :=
  withRetryGo apiCall maxRetries initialDelay jitter 0 maxRetries

/-- A fatal (non-rate-limit) error on the first attempt is rethrown at once:
one call, no delays. -/
lemma withRetry_fatal_first {α : Type} (apiCall : Nat → Except JsError α)
    (e : JsError) (m d : Nat) (j : Nat → Nat)
    (hm : 1 ≤ m) (h0 : apiCall 0 = .error e)
    (hf : isRateLimitError e = false) :
    withRetry apiCall m d j = ⟨.err e, 1, []⟩ := by
  obtain ⟨m', rfl⟩ : ∃ m', m = m' + 1 := ⟨m - 1, by omega⟩
  simp [withRetry, withRetryGo, h0, hf]

/-- If every attempt from `attempt` on fails with a transient error, the loop
performs the remaining `maxRetries - attempt` calls, sleeping
`initialDelay * 2 ^ a + jitter a` after each failed attempt `a` except the
last, and rethrows the error of attempt `maxRetries - 1`. -/
lemma withRetryGo_transient {α : Type} (apiCall : Nat → Except JsError α)
    (errs : Nat → JsError) (m d : Nat) (j : Nat → Nat)
    (hop : ∀ a, a < m → apiCall a = .error (errs a))
    (htr : ∀ a, a < m → isRateLimitError (errs a) = true) :
    ∀ fuel attempt, fuel = m - attempt → attempt < m →
      withRetryGo apiCall m d j attempt fuel =
        ⟨.err (errs (m - 1)), m - attempt,
          (List.range' attempt (m - 1 - attempt)).map
            (fun a => d * 2 ^ a + j a)⟩ := by
  intro fuel
  induction fuel with
  | zero => intro attempt hfa ha; omega
  | succ n ih =>
    intro attempt hfa ha
    show (match apiCall attempt with
      | .ok v => ⟨.ok v, 1, []⟩
      | .error e =>
          if isRateLimitError e then
            if m ≤ attempt + 1 then ⟨.err e, 1, []⟩
            else
              let rest := withRetryGo apiCall m d j (attempt + 1) n
              ⟨rest.outcome, rest.calls + 1,
                (d * 2 ^ attempt + j attempt) :: rest.delays⟩
          else ⟨.err e, 1, []⟩ : RetryTrace α) = _
    rw [hop attempt ha]
    simp only [htr attempt ha, if_true]
    by_cases hlast : m ≤ attempt + 1
    · rw [if_pos hlast]
      have h1 : attempt = m - 1 := by omega
      have h2 : m - attempt = 1 := by omega
      have h3 : m - 1 - attempt = 0 := by omega
      rw [h2, h3]
      simp [h1]
    · rw [if_neg hlast]
      rw [ih (attempt + 1) (by omega) (by omega)]
      have h4 : m - 1 - attempt = (m - 1 - (attempt + 1)) + 1 := by omega
      rw [h4, List.range'_succ]
      simp only [List.map_cons]
      have h5 : m - (attempt + 1) + 1 = m - attempt := by omega
      simp [h5]

/-- **C4.** `withRetry` on an operation that fails with a fatal error on the
first attempt calls the operation exactly once, sleeps never, and rethrows
that error; on an operation failing with a transient error on every attempt
it calls the operation exactly `maxRetries` times, sleeping
`initialDelay * 2 ^ attempt + jitter(attempt)` with `jitter(attempt) ∈
[0, 1000)` before each retry, and rethrows the error of the final attempt. -/
theorem withRetry_fatal_and_transient {α : Type} :
    (∀ (apiCall : Nat → Except JsError α) (e : JsError) (m d : Nat)
        (j : Nat → Nat), 1 ≤ m → apiCall 0 = .error e →
        isRateLimitError e = false →
        withRetry apiCall m d j = ⟨.err e, 1, []⟩) ∧
    (∀ (apiCall : Nat → Except JsError α) (errs : Nat → JsError) (m d : Nat)
        (j : Nat → Nat), 1 ≤ m →
        (∀ a, a < m → apiCall a = .error (errs a)) →
        (∀ a, a < m → isRateLimitError (errs a) = true) →
        (∀ a, j a < 1000) →
        withRetry apiCall m d j =
          ⟨.err (errs (m - 1)), m,
            (List.range (m - 1)).map (fun a => d * 2 ^ a + j a)⟩ ∧
        ∀ a, d * 2 ^ a ≤ d * 2 ^ a + j a ∧
          d * 2 ^ a + j a < d * 2 ^ a + 1000) := by
  constructor
  · exact fun apiCall e m d j hm h0 hf =>
      withRetry_fatal_first apiCall e m d j hm h0 hf
  · intro apiCall errs m d j hm hop htr hj
    constructor
    · have h := withRetryGo_transient apiCall errs m d j hop htr m 0
        (by omega) (by omega)
      rw [withRetry, h]
      have : List.range' 0 (m - 1 - 0) = List.range (m - 1) := by
        rw [Nat.sub_zero, List.range_eq_range']
      rw [this, Nat.sub_zero]
    · intro a
      exact ⟨Nat.le_add_right _ _, by have := hj a; omega⟩

/-- A sample fatal error: its message contains neither `'429'` nor
`'RESOURCE_EXHAUSTED'`. -/
def fatalErr : JsError := .exn ['b', 'o', 'o', 'm']

/-- An operation that always fails fatally. -/
def fatalOp : Nat → Except JsError Unit := fun _ => .error fatalErr

/-- An operation that always fails with HTTP 429 responses. -/
def transientOp : Nat → Except JsError Unit := fun _ => .error (.response 429)

/-- The degenerate jitter sampling that always draws 0. -/
def zeroJitter : Nat → Nat := fun _ => 0

/-- Witness for C4 with `maxRetries = 3`, `initialDelay = 2000`: the fatal
operation is called once, the transient one three times with delays 2000 and
4000. -/
theorem withRetry_fatal_and_transient_witness :
    withRetry fatalOp 3 2000 zeroJitter = ⟨.err fatalErr, 1, []⟩ ∧
    withRetry transientOp 3 2000 zeroJitter =
      ⟨.err (.response 429), 3,
        (List.range 2).map (fun a => 2000 * 2 ^ a + zeroJitter a)⟩ :=
  ⟨withRetry_fatal_and_transient.1 fatalOp fatalErr 3 2000 zeroJitter
      (by norm_num) rfl (by decide),
   ((withRetry_fatal_and_transient.2 transientOp (fun _ => .response 429)
      3 2000 zeroJitter (by norm_num) (fun _ _ => rfl) (fun _ _ => rfl)
      (fun _ => by unfold zeroJitter; norm_num)).1)⟩

/-- "contains the substring", stated from the spec's words. -/
def containsSubstring (sub msg : List Char) : Prop :=
  ∃ l r, msg = l ++ sub ++ r

/-- Transience, stated from the spec's words: the error carries an HTTP 429
status, its message contains the substring `"429"` or `"RESOURCE_EXHAUSTED"`,
or it is an HTTP 503 response. -/
def specTransientError : JsError → Prop
  | .exn msg =>
      containsSubstring s429 msg ∨ containsSubstring sResourceExhausted msg
  | .response st => st = 429 ∨ st = 503
  | .other => False

/-- **C5.** `withRetry` classifies an error as transient (retried) exactly
when the spec says: a message containing `'429'` or `'RESOURCE_EXHAUSTED'`,
or a `Response` with HTTP status 429 or 503; and every other error is
rethrown immediately on its first occurrence, after exactly one call and
with no delay slept. -/
theorem isRateLimitError_matches_spec {α : Type} :
    (∀ e : JsError, isRateLimitError e = true ↔ specTransientError e) ∧
    (∀ (apiCall : Nat → Except JsError α) (e : JsError) (m d : Nat)
        (j : Nat → Nat), 1 ≤ m → apiCall 0 = .error e →
        isRateLimitError e = false →
        withRetry apiCall m d j = ⟨.err e, 1, []⟩) := by
  constructor
  · intro e
    cases e with
    | exn msg =>
      simp [isRateLimitError, specTransientError, containsSubstring,
        containsSub_iff]
    | response st => simp [isRateLimitError, specTransientError]
    | other => simp [isRateLimitError, specTransientError]
  · exact fun apiCall e m d j hm h0 hf =>
      withRetry_fatal_first apiCall e m d j hm h0 hf

/-- Witness for C5: a concrete 503 response is classified transient, and the
concrete fatal operation is rethrown after one call. -/
theorem isRateLimitError_matches_spec_witness :
    (isRateLimitError (JsError.response 503) = true ↔
      specTransientError (JsError.response 503)) ∧
    withRetry fatalOp 3 2000 zeroJitter = ⟨.err fatalErr, 1, []⟩ :=
  ⟨(isRateLimitError_matches_spec (α := Unit)).1 (.response 503),
   (isRateLimitError_matches_spec (α := Unit)).2 fatalOp fatalErr 3 2000
     zeroJitter (by norm_num) rfl (by decide)⟩

/-! ### Retriever — `findRelevantContext` (src/services/ragService.ts,
lines 110–158)

```ts
export const findRelevantContext = async (query, character, topK = 3) => {
    if (!character.embeddingConfig) { logger.warn(...); return null; }
    const sourceIds = character.knowledgeSourceIds || [];
    if (sourceIds.length === 0) { return null; }
    try {
        const queryEmbedding = await embeddingService.generateEmbedding(
            query, character.embeddingConfig);
        let allChunks: VectorChunk[] = [];
        for (const sourceId of sourceIds) {
            const chunks = await db.getVectorChunksBySource(sourceId);
            allChunks = allChunks.concat(chunks);
        }
        if (allChunks.length === 0) { return null; }
        const scoredChunks = allChunks.map(chunk => ({ ...chunk,
            similarity: calculateCosineSimilarity(queryEmbedding,
                chunk.embedding) }));
        scoredChunks.sort((a, b) => b.similarity - a.similarity);
        const topChunks = scoredChunks.slice(0, topK);
        return topChunks.map(chunk => chunk.content).join('\n\n---\n\n');
    } catch (error) { throw error; }
};
```

The embedding provider and the vector store are external collaborators
(`embeddingService`, `db`) and are passed as function parameters; the trace
counts how many calls each receives.  Embedding vectors are modelled over
`ℚ`; the pairwise similarity function (`calculateCosineSimilarity`, whose
values require square roots) is likewise a parameter — no claim under
verification depends on its values, only on whether the providers are
reached at all. -/

/-- A vector of floats. -/
abbrev Vec := List ℚ

/-- `EmbeddingConfig` value object: `{service, apiKey?, apiEndpoint?,
model}`. -/
structure EmbeddingConfig where
  service : List Char
  apiKey : Option (List Char)
  apiEndpoint : Option (List Char)
  model : Option (List Char)
deriving DecidableEq

/-- A chunk record in the vector store. -/
structure VectorChunk where
  id : List Char
  sourceId : List Char
  content : List Char
  embedding : Vec
deriving DecidableEq

/-- The fields of a character that `findRelevantContext` reads. -/
structure Character where
  embeddingConfig : Option EmbeddingConfig
  knowledgeSourceIds : Option (List (List Char))
deriving DecidableEq

/-- Observable trace of one retrieval: the returned value (or the rethrown
error) and how many calls the embedding provider and the vector store
received. -/
structure RetrievalTrace where
  result : Except JsError (Option (List Char))
  embedCalls : Nat
  storeCalls : Nat

/-- The `for (const sourceId of sourceIds)` loop: loads chunks per source,
concatenating in order; the first store failure aborts the loop (and is
rethrown by the surrounding catch).  Also counts store calls made. -/
def loadChunks (gvc : List Char → Except JsError (List VectorChunk)) :
    List (List Char) → Except JsError (List VectorChunk) × Nat
  | [] => (.ok [], 0)
  | sid :: rest =>
      match gvc sid with
      | .error e => (.error e, 1)
      | .ok chunks =>
          match loadChunks gvc rest with
          | (.error e, n) => (.error e, n + 1)
          | (.ok more, n) => (.ok (chunks ++ more), n + 1)

/-- The join separator `'\n\n---\n\n'`. -/
def chunkSeparator : List Char := "\n\n---\n\n".toList

/-- `findRelevantContext(query, character, topK)`. -/
def findRelevantContext
    (generateEmbedding : List Char → EmbeddingConfig → Except JsError Vec)
    (gvc : List Char → Except JsError (List VectorChunk))
    (sim : Vec → Vec → ℚ)
    (query : List Char) (character : Character) (topK : Nat) :
    RetrievalTrace :=
  match character.embeddingConfig with
  | none => ⟨.ok none, 0, 0⟩
  | some cfg =>
      let sourceIds := character.knowledgeSourceIds.getD []
      if sourceIds.length = 0 then ⟨.ok none, 0, 0⟩
      else
        match generateEmbedding query cfg with
        | .error e => ⟨.error e, 1, 0⟩
        | .ok queryEmbedding =>
            match loadChunks gvc sourceIds with
            | (.error e, n) => ⟨.error e, 1, n⟩
            | (.ok allChunks, n) =>
                if allChunks.length = 0 then ⟨.ok none, 1, n⟩
                else
                  let scoredChunks := allChunks.map
                    (fun chunk => (chunk, sim queryEmbedding chunk.embedding))
                  let sorted := scoredChunks.insertionSort
                    (fun a b => b.2 ≤ a.2)
                  let topChunks := sorted.take topK
                  ⟨.ok (some (List.intercalate chunkSeparator
                    (topChunks.map (fun pr => pr.1.content)))), 1, n⟩

/-- **C6.** For every query and every character whose `knowledgeSourceIds`
is empty or absent, `findRelevantContext` returns `null` and the embedding
provider receives no call. -/
theorem findRelevantContext_no_sources
    (generateEmbedding : List Char → EmbeddingConfig → Except JsError Vec)
    (gvc : List Char → Except JsError (List VectorChunk))
    (sim : Vec → Vec → ℚ) (query : List Char) (character : Character)
    (topK : Nat)
    (h : character.knowledgeSourceIds = none ∨
         character.knowledgeSourceIds = some []) :
    (findRelevantContext generateEmbedding gvc sim query character
        topK).result = .ok none ∧
    (findRelevantContext generateEmbedding gvc sim query character
        topK).embedCalls = 0 := by
  unfold findRelevantContext
  cases hcfg : character.embeddingConfig with
  | none => exact ⟨rfl, rfl⟩
  | some cfg =>
    have hids : character.knowledgeSourceIds.getD [] = [] := by
      rcases h with h | h <;> rw [h] <;> rfl
    simp only [hids]
    exact ⟨rfl, rfl⟩

/-- A character with an embedding config but no knowledge sources. -/
def noSourcesChar : Character :=
  ⟨some ⟨[], none, none, none⟩, some []⟩

/-- A character with knowledge sources but no embedding config. -/
def noConfigChar : Character :=
  ⟨none, some [['s']]⟩

/-- A trivial embedding provider used in witnesses. -/
def dummyEmbed : List Char → EmbeddingConfig → Except JsError Vec :=
  fun _ _ => .ok []

/-- A trivial vector store used in witnesses. -/
def dummyStore : List Char → Except JsError (List VectorChunk) :=
  fun _ => .ok []

/-- A trivial similarity function used in witnesses. -/
def dummySim : Vec → Vec → ℚ := fun _ _ => 0

/-- Witness for C6 at a concrete character with `knowledgeSourceIds = []`. -/
theorem findRelevantContext_no_sources_witness :
    (noSourcesChar.knowledgeSourceIds = none ∨
     noSourcesChar.knowledgeSourceIds = some []) ∧
    ((findRelevantContext dummyEmbed dummyStore dummySim [] noSourcesChar
        3).result = .ok none ∧
     (findRelevantContext dummyEmbed dummyStore dummySim [] noSourcesChar
        3).embedCalls = 0) :=
  ⟨Or.inr rfl,
   findRelevantContext_no_sources dummyEmbed dummyStore dummySim []
     noSourcesChar 3 (Or.inr rfl)⟩

/-- **C10.** For every query and every character whose `embeddingConfig` is
absent, `findRelevantContext` returns `null` without calling the embedding
provider or the vector store, even when `knowledgeSourceIds` is
non-empty. -/
theorem findRelevantContext_no_config
    (generateEmbedding : List Char → EmbeddingConfig → Except JsError Vec)
    (gvc : List Char → Except JsError (List VectorChunk))
    (sim : Vec → Vec → ℚ) (query : List Char) (character : Character)
    (topK : Nat) (h : character.embeddingConfig = none) :
    findRelevantContext generateEmbedding gvc sim query character topK =
      ⟨.ok none, 0, 0⟩ := by
  unfold findRelevantContext
  rw [h]

/-- Witness for C10 at a concrete character with sources but no config. -/
theorem findRelevantContext_no_config_witness :
    noConfigChar.embeddingConfig = none ∧
    findRelevantContext dummyEmbed dummyStore dummySim [] noConfigChar 3 =
      ⟨.ok none, 0, 0⟩ :=
  ⟨rfl, findRelevantContext_no_config dummyEmbed dummyStore dummySim []
     noConfigChar 3 rfl⟩

/-! ### Indexing — `processAndIndexFile` (src/services/ragService.ts,
lines 58–103)

```ts
export const processAndIndexFile = async (file, embeddingConfig, onProgress) => {
    const newSource: RagSource = { id: `source-${crypto.randomUUID()}`, ... };
    const content = await readFileAsText(file);
    const textChunks = chunkText(content);
    const vectorChunks: VectorChunk[] = [];
    for (let i = 0; i < textChunks.length; i++) {
        const chunk = textChunks[i];
        try {
            const embedding = await embeddingService.generateEmbedding(
                chunk, embeddingConfig);
            vectorChunks.push({ id: `chunk-${crypto.randomUUID()}`,
                sourceId: newSource.id, content: chunk, embedding });
        } catch (error) {
            throw new Error(
                `Failed to process chunk ${i+1}. Check embedding API settings.`);
        }
    }
    await db.saveVectorChunks(vectorChunks);
    return newSource;
};
```

File reading and the id generator (`crypto.randomUUID`) are external; the
trace records the error message thrown (if any) and the argument that
`db.saveVectorChunks` received (`none` when it was never called). -/

/-- `RagSource` record: `{id, fileName, fileType, createdAt}`. -/
structure RagSource where
  id : List Char
  fileName : List Char
  fileType : List Char
  createdAt : List Char
deriving DecidableEq

/-- `chunkText(content)` at its default parameters 1000/200; these are valid
(`0 ≤ 200 < 1000`), so by `chunkTextFuel_run` the loop always terminates and
the default value of this `getD` is never taken. -/
def chunkTextD (text : List Char) : List (List Char) :=
  (chunkText text 1000 200).getD []

/-- The text before the chunk number in the indexing failure message. -/
def chunkFailPre : List Char := "Failed to process chunk ".toList

/-- The text after the chunk number in the indexing failure message. -/
def chunkFailPost : List Char := ". Check embedding API settings.".toList

/-- The message of the error thrown when embedding chunk `i` (0-based)
fails: `Failed to process chunk ${i+1}. Check embedding API settings.` -/
def chunkFailMsg (i : Nat) : List Char :=
  chunkFailPre ++ (Nat.repr (i + 1)).toList ++ chunkFailPost

/-- Observable trace of one indexing run: the result (the new source or the
thrown error message) and the argument passed to `db.saveVectorChunks`
(`none` when the save was never reached). -/
structure IndexTrace where
  result : Except (List Char) RagSource
  saved : Option (List VectorChunk)

/-- The `for (let i = 0; ...)` embedding loop, starting at chunk index `k`:
per chunk, either a successful embedding appends a `VectorChunk`, or the
first failure throws the chunk-indexed error message. -/
def embedChunks (generateEmbedding : List Char → Except JsError Vec)
    (ids : Nat → List Char) (sourceId : List Char) :
    List (List Char) → Nat → Except (List Char) (List VectorChunk)
  | [], _ => .ok []
  | chunk :: rest, k =>
      match generateEmbedding chunk with
      | .error _ => .error (chunkFailMsg k)
      | .ok embedding =>
          match embedChunks generateEmbedding ids sourceId rest (k + 1) with
          | .error msg => .error msg
          | .ok more => .ok (⟨ids k, sourceId, chunk, embedding⟩ :: more)

/-- `processAndIndexFile`: chunk the file content, embed every chunk in
order, and only then save the accumulated vector chunks. -/
def processAndIndexFile (generateEmbedding : List Char → Except JsError Vec)
    (ids : Nat → List Char) (newSource : RagSource) (content : List Char) :
    IndexTrace :=
  let textChunks := chunkTextD content
  match embedChunks generateEmbedding ids newSource.id textChunks 0 with
  | .error msg => ⟨.error msg, none⟩
  | .ok vectorChunks => ⟨.ok newSource, some vectorChunks⟩

lemma embedChunks_fails (generateEmbedding : List Char → Except JsError Vec)
    (ids : Nat → List Char) (sourceId : List Char) :
    ∀ (chunks : List (List Char)) (k i : Nat), i < chunks.length →
      (∀ j, j < i → ∃ v, generateEmbedding (chunks.getD j []) = .ok v) →
      (∃ e, generateEmbedding (chunks.getD i []) = .error e) →
      embedChunks generateEmbedding ids sourceId chunks k =
        .error (chunkFailMsg (k + i)) := by
  intro chunks
  induction chunks with
  | nil => intro k i hi; simp at hi
  | cons c rest ih =>
    intro k i hi hok hfail
    cases i with
    | zero =>
      obtain ⟨e, he⟩ := hfail
      simp only [List.getD_cons_zero] at he
      simp [embedChunks, he]
    | succ i' =>
      obtain ⟨v, hv⟩ := hok 0 (Nat.succ_pos i')
      simp only [List.getD_cons_zero] at hv
      have hrest : embedChunks generateEmbedding ids sourceId rest (k + 1) =
          .error (chunkFailMsg (k + 1 + i')) := by
        refine ih (k + 1) i' (by simpa using hi) ?_ ?_
        · intro j hj
          have := hok (j + 1) (by omega)
          simpa using this
        · simpa using hfail
      have harith : k + 1 + i' = k + (i' + 1) := by omega
      simp [embedChunks, hv, hrest, harith]

/-- **C7.** `processAndIndexFile` is atomic with respect to embedding
failure: if the first embedding failure happens at chunk index `i` (0-based),
the whole job fails with the error message naming chunk `i + 1`, and
`db.saveVectorChunks` is never called — no chunk of the file is persisted. -/
theorem processAndIndexFile_atomic
    (generateEmbedding : List Char → Except JsError Vec)
    (ids : Nat → List Char) (newSource : RagSource) (content : List Char)
    (i : Nat) (hi : i < (chunkTextD content).length)
    (hok : ∀ j, j < i →
      ∃ v, generateEmbedding ((chunkTextD content).getD j []) = .ok v)
    (hfail : ∃ e,
      generateEmbedding ((chunkTextD content).getD i []) = .error e) :
    processAndIndexFile generateEmbedding ids newSource content =
      ⟨.error (chunkFailMsg i), none⟩ := by
  unfold processAndIndexFile
  have h := embedChunks_fails generateEmbedding ids newSource.id
    (chunkTextD content) 0 i hi hok hfail
  simp [h]

/-- An embedding provider that always fails. -/
def failingEmbed : List Char → Except JsError Vec :=
  fun _ => .error fatalErr

/-- A trivial id generator. -/
def dummyIds : Nat → List Char := fun _ => ['u']

/-- A trivial source record. -/
def dummySource : RagSource := ⟨['s'], ['f'], ['t'], ['d']⟩

/-- Witness for C7: a 3-character file produces one chunk, whose embedding
fails, so the job fails with the chunk-1 message and nothing is saved. -/
theorem processAndIndexFile_atomic_witness :
    0 < (chunkTextD abcText).length ∧
    processAndIndexFile failingEmbed dummyIds dummySource abcText =
      ⟨.error (chunkFailMsg 0), none⟩ :=
  ⟨by decide,
   processAndIndexFile_atomic failingEmbed dummyIds dummySource abcText 0
     (by decide) (fun j hj => absurd hj (Nat.not_lt_zero j))
     ⟨fatalErr, rfl⟩⟩

/-! ### History normalization — `normalizeGeminiHistory`
(src/unnamed/part_002, lines 494–541)

```ts
const normalizeGeminiHistory = (history: Message[]) => {
    const relevantMessages = history.filter(msg =>
        msg.role === 'user' || msg.role === 'model' || msg.role === 'narrator');
    if (relevantMessages.length === 0) return [];
    const mapped = relevantMessages.map(msg => {
        const role = msg.role === 'model' ? 'model' : 'user';
        let parts: any[] = [];
        const textContent = msg.role === 'narrator'
            ? `[NARRATOR]: ${msg.content}` : msg.content;
        if (textContent.trim()) { parts.push({ text: textContent }); }
        if (msg.attachment && msg.attachment.url
            && msg.attachment.status === 'done') {
            const base64Data = msg.attachment.url.split(',')[1];
            if (base64Data) {
                parts.push({ inlineData: {
                    mimeType: msg.attachment.mimeType || 'image/png',
                    data: base64Data } });
            }
        }
        return { role, parts };
    });
    const merged = [];
    if (mapped.length > 0) {
        merged.push(mapped[0]);
        for (let i = 1; i < mapped.length; i++) {
            const prev = merged[merged.length - 1];
            const curr = mapped[i];
            if (prev.role === curr.role) {
                prev.parts = [...prev.parts, ...curr.parts];
            } else { merged.push(curr); }
        }
    }
    return merged;
};
```

The merge loop (push / mutate-last) is embedded as `mergeGo`, carrying the
current last element and the already-final elements in reverse.  The
specification side — "consecutive turns that resolve to the same normalized
role are merged into one turn by concatenating their content parts in
order" — is `turnRuns`/`mergeRun`: split into maximal constant-role runs and
concatenate each run's parts. -/

/-- A chat message role. -/
inductive Role where
  | user | model | narrator | system
deriving DecidableEq

/-- A message attachment: `{url, status, mimeType?}`. -/
structure Attachment where
  url : List Char
  status : List Char
  mimeType : Option (List Char)
deriving DecidableEq

/-- A chat message as `normalizeGeminiHistory` reads it. -/
structure Message where
  role : Role
  content : List Char
  attachment : Option Attachment
deriving DecidableEq

/-- Normalized provider role: narrator folds into `user`. -/
inductive GeminiRole where
  | user | model
deriving DecidableEq

/-- A content part of a normalized turn. -/
inductive Part where
  | text (t : List Char)
  | inlineData (mimeType : List Char) (data : List Char)
deriving DecidableEq

/-- A normalized turn: `{role, parts}`. -/
structure Turn where
  role : GeminiRole
  parts : List Part
deriving DecidableEq

/-- ASCII whitespace trimmed by `String.prototype.trim` (the claims only use
whether the trimmed text is empty). -/
def isJsWhitespace (c : Char) : Bool :=
  c = ' ' || c = '\t' || c = '\n' || c = '\r' || c = '\x0b' || c = '\x0c'

/-- `s.trim()` of JavaScript. -/
def jsTrim (s : List Char) : List Char :=
  ((s.dropWhile isJsWhitespace).reverse.dropWhile isJsWhitespace).reverse

/-- The literal prefix `'[NARRATOR]: '`. -/
def narratorTag : List Char := "[NARRATOR]: ".toList

/-- The literal `'done'`. -/
def doneStatus : List Char := "done".toList

/-- The literal `'image/png'`. -/
def defaultMime : List Char := "image/png".toList

/-- The per-message mapping step of `normalizeGeminiHistory`. -/
def toTurn (msg : Message) : Turn :=
  let role :=
    if msg.role = Role.model then GeminiRole.model else GeminiRole.user
  let textContent :=
    if msg.role = Role.narrator then narratorTag ++ msg.content
    else msg.content
  let textParts : List Part :=
    if (jsTrim textContent).isEmpty then [] else [.text textContent]
  let attachParts : List Part :=
    match msg.attachment with
    | none => []
    | some att =>
        if att.url ≠ [] ∧ att.status = doneStatus then
          let base64Data := (att.url.splitOn ',').getD 1 []
          if base64Data.isEmpty then []
          else
            let mime :=
              match att.mimeType with
              | none => defaultMime
              | some m => if m.isEmpty then defaultMime else m
          [.inlineData mime base64Data]
        else []
  ⟨role, textParts ++ attachParts⟩

/-- The merge loop: `last` is the element currently at the end of `merged`
(still being extended in place), `accRev` the finished elements in reverse. -/
def mergeGo : Turn → List Turn → List Turn → List Turn
  | last, accRev, [] => (last :: accRev).reverse
  | last, accRev, curr :: rest =>
      if last.role = curr.role then
        mergeGo ⟨last.role, last.parts ++ curr.parts⟩ accRev rest
      else mergeGo curr (last :: accRev) rest

/-- Merge consecutive turns of the same role (lines 525–538). -/
def mergeTurns : List Turn → List Turn
  | [] => []
  | t :: rest => mergeGo t [] rest

/-- The relevance filter: keep `user`, `model` and `narrator` messages. -/
def isRelevantMessage (msg : Message) : Bool :=
  msg.role = Role.user || msg.role = Role.model || msg.role = Role.narrator

/-- `normalizeGeminiHistory(history)`. -/
def normalizeGeminiHistory (history : List Message) : List Turn :=
  let relevantMessages := history.filter isRelevantMessage
  if relevantMessages.length = 0 then []
  else mergeTurns (relevantMessages.map toTurn)

/-- Specification side: prepend a turn to a run decomposition, extending the
first run when the roles match and opening a new run otherwise. -/
def consRun (t : Turn) : List (List Turn) → List (List Turn)
  | [] => [[t]]
  | [] :: more => [t] :: more
  | (u :: run) :: more =>
      if t.role = u.role then (t :: u :: run) :: more
      else [t] :: (u :: run) :: more

/-- Specification side: the maximal runs of consecutive equal-role turns. -/
def turnRuns : List Turn → List (List Turn)
  | [] => []
  | t :: rest => consRun t (turnRuns rest)

/-- Placeholder turn for `headD`. -/
def defaultTurn : Turn := ⟨GeminiRole.user, []⟩

/-- Specification side: one run becomes a single turn whose parts are the
concatenation, in order, of the run's parts. -/
def mergeRun (run : List Turn) : Turn :=
  ⟨(run.headD defaultTurn).role, (run.map (fun t => t.parts)).flatten⟩

/-- Accumulator-free form of the merge loop. -/
def mergeFrom : Turn → List Turn → List Turn
  | last, [] => [last]
  | last, curr :: rest =>
      if last.role = curr.role then
        mergeFrom ⟨last.role, last.parts ++ curr.parts⟩ rest
      else last :: mergeFrom curr rest

lemma mergeGo_eq_mergeFrom :
    ∀ (l : List Turn) (last : Turn) (accRev : List Turn),
      mergeGo last accRev l = accRev.reverse ++ mergeFrom last l := by
  intro l
  induction l with
  | nil => intro last accRev; simp [mergeGo, mergeFrom]
  | cons curr rest ih =>
    intro last accRev
    by_cases h : last.role = curr.role
    · simp only [mergeGo, mergeFrom, if_pos h]
      exact ih _ accRev
    · simp only [mergeGo, mergeFrom, if_neg h]
      rw [ih curr (last :: accRev)]
      simp

lemma consRun_shape (t : Turn) (rs : List (List Turn)) :
    ∃ run more, consRun t rs = (t :: run) :: more := by
  match rs with
  | [] => exact ⟨[], [], rfl⟩
  | [] :: more => exact ⟨[], more, rfl⟩
  | (u :: run) :: more =>
    by_cases h : t.role = u.role
    · exact ⟨u :: run, more, by simp [consRun, h]⟩
    · exact ⟨[], (u :: run) :: more, by simp [consRun, h]⟩

lemma mergeFrom_eq_runs :
    ∀ (l : List Turn) (last : Turn),
      mergeFrom last l = (consRun last (turnRuns l)).map mergeRun := by
  intro l
  induction l with
  | nil =>
    intro last
    simp [mergeFrom, turnRuns, consRun, mergeRun]
  | cons curr rest ih =>
    intro last
    by_cases h : last.role = curr.role
    · simp only [mergeFrom, if_pos h, turnRuns]
      rw [ih ⟨last.role, last.parts ++ curr.parts⟩]
      match hx : turnRuns rest with
      | [] => simp [consRun, h, mergeRun]
      | [] :: more => simp [consRun, h, mergeRun]
      | (u :: run) :: more =>
        by_cases h2 : curr.role = u.role
        · have h3 : last.role = u.role := h.trans h2
          simp [consRun, h, h2, h3, mergeRun]
        · have h3 : ¬ last.role = u.role := fun hc => h2 (h.symm.trans hc)
          simp [consRun, h, h2, h3, mergeRun]
    · simp only [mergeFrom, if_neg h, turnRuns]
      rw [ih curr]
      obtain ⟨run, more, hshape⟩ := consRun_shape curr (turnRuns rest)
      rw [hshape]
      simp [consRun, h, mergeRun]

lemma mergeTurns_eq_runs (l : List Turn) :
    mergeTurns l = (turnRuns l).map mergeRun := by
  cases l with
  | nil => rfl
  | cons t rest =>
    show mergeGo t [] rest = _
    rw [mergeGo_eq_mergeFrom rest t []]
    simp only [List.reverse_nil, List.nil_append]
    rw [mergeFrom_eq_runs rest t]
    rfl

lemma turnRuns_flatten : ∀ l : List Turn, (turnRuns l).flatten = l := by
  intro l
  induction l with
  | nil => rfl
  | cons t rest ih =>
    show (consRun t (turnRuns rest)).flatten = t :: rest
    match hx : turnRuns rest with
    | [] =>
      rw [hx] at ih
      simp only [List.flatten] at ih
      simp [consRun, ← ih]
    | [] :: more =>
      rw [hx] at ih
      simp only [List.flatten, List.nil_append] at ih
      simp [consRun, List.flatten, ← ih]
    | (u :: run) :: more =>
      rw [hx] at ih
      by_cases h : t.role = u.role
      · simp [consRun, h, List.flatten, ← ih]
      · simp [consRun, h, List.flatten, ← ih]

lemma turnRuns_runs_sound :
    ∀ (l : List Turn) (run : List Turn), run ∈ turnRuns l →
      run ≠ [] ∧ ∀ u ∈ run, u.role = (run.headD defaultTurn).role := by
  intro l
  induction l with
  | nil => intro run h; simp [turnRuns] at h
  | cons t rest ih =>
    intro run hmem
    rw [show turnRuns (t :: rest) = consRun t (turnRuns rest) from rfl]
      at hmem
    match hx : turnRuns rest with
    | [] =>
      rw [hx] at hmem
      simp [consRun] at hmem
      subst hmem
      refine ⟨by simp, ?_⟩
      intro u hu
      simp at hu
      simp [hu]
    | [] :: more =>
      exact absurd (hx ▸ List.mem_cons_self [] more)
        (fun hc => (ih [] hc).1 rfl)
    | (u :: urun) :: more =>
      rw [hx] at hmem
      by_cases h : t.role = u.role
      · rw [consRun, if_pos h] at hmem
        rcases List.mem_cons.mp hmem with h1 | h1
        · subst h1
          have hold := ih (u :: urun)
            (by rw [hx]; exact List.mem_cons_self _ _)
          refine ⟨by simp, ?_⟩
          intro v hv
          simp only [List.headD_cons]
          rcases List.mem_cons.mp hv with rfl | hv2
          · rfl
          · have := hold.2 v hv2
            simp only [List.headD_cons] at this
            rw [this, ← h]
        · exact ih run (by rw [hx]; exact List.mem_cons_of_mem _ h1)
      · rw [consRun, if_neg h] at hmem
        rcases List.mem_cons.mp hmem with h1 | h1
        · subst h1
          exact ⟨by simp, by intro v hv; simp at hv; simp [hv]⟩
        · exact ih run (by rw [hx]; exact h1)

lemma turnRuns_maximal :
    ∀ l : List Turn, List.Chain'
      (fun r s => (r.headD defaultTurn).role ≠ (s.headD defaultTurn).role)
      (turnRuns l) := by
  intro l
  induction l with
  | nil => simp [turnRuns]
  | cons t rest ih =>
    show List.Chain' _ (consRun t (turnRuns rest))
    match hx : turnRuns rest with
    | [] => simp [consRun]
    | [] :: more =>
      exact absurd (hx ▸ List.mem_cons_self [] more)
        (fun hc => (turnRuns_runs_sound rest [] hc).1 rfl)
    | (u :: urun) :: more =>
      rw [hx] at ih
      by_cases h : t.role = u.role
      · rw [consRun, if_pos h]
        cases more with
        | nil => simp
        | cons m ms =>
          refine List.Chain'.cons ?_ (List.Chain'.tail ih)
          have := List.Chain'.rel_head ih
          simpa [h] using this
      · rw [consRun, if_neg h]
        exact List.Chain'.cons (by simpa using h) ih

/-- A first user message. -/
def msgU1 : Message := ⟨Role.user, ['h', 'i'], none⟩

/-- A second user message. -/
def msgU2 : Message := ⟨Role.user, ['y', 'o'], none⟩

/-- A narrator message, which resolves to the `user` role. -/
def msgN3 : Message := ⟨Role.narrator, ['g', 'o'], none⟩

/-- **C8.** The merge step of `normalizeGeminiHistory` collapses every
maximal run of consecutive turns of the same normalized role (narrator
messages having resolved to `user`) into one turn whose parts are the
concatenation, in input order, of the run's parts: `mergeTurns` equals the
run-wise description, `turnRuns` being a partition of the input into
non-empty constant-role runs with adjacent runs of distinct roles; in
particular two user messages followed by a narrator message collapse to a
single merged turn. -/
theorem normalizeGeminiHistory_merges_runs :
    (∀ l : List Turn, mergeTurns l = (turnRuns l).map mergeRun) ∧
    (∀ history : List Message,
        normalizeGeminiHistory history =
          (turnRuns ((history.filter isRelevantMessage).map toTurn)).map
            mergeRun) ∧
    (∀ l : List Turn, (turnRuns l).flatten = l) ∧
    (∀ l run, run ∈ turnRuns l →
        run ≠ [] ∧ ∀ u ∈ run, u.role = (run.headD defaultTurn).role) ∧
    (∀ l : List Turn, List.Chain'
        (fun r s => (r.headD defaultTurn).role ≠ (s.headD defaultTurn).role)
        (turnRuns l)) ∧
    normalizeGeminiHistory [msgU1, msgU2, msgN3] =
      [⟨GeminiRole.user, [Part.text ['h', 'i'], Part.text ['y', 'o'],
        Part.text (narratorTag ++ ['g', 'o'])]⟩] := by
  refine ⟨mergeTurns_eq_runs, ?_, turnRuns_flatten, turnRuns_runs_sound,
    turnRuns_maximal, by decide⟩
  intro history
  unfold normalizeGeminiHistory
  by_cases h : (history.filter isRelevantMessage).length = 0
  · rw [if_pos h, List.length_eq_zero.mp h]
    rfl
  · rw [if_neg h]
    exact mergeTurns_eq_runs _

/-- Witness for C8, instantiating the run-soundness component at a concrete
one-element history. -/
theorem normalizeGeminiHistory_merges_runs_witness :
    [defaultTurn] ≠ [] ∧
    ∀ u ∈ [defaultTurn], u.role = ([defaultTurn].headD defaultTurn).role :=
  normalizeGeminiHistory_merges_runs.2.2.2.1 [defaultTurn] [defaultTurn]
    (by decide)

/-! ### Streaming error handling — `streamOpenAIChatResponse` (lines
130–193) and `streamGeminiChatResponse` (lines 543–588) of
src/unnamed/part_002

Both functions wrap their whole body in `try/catch`; the catch does not
rethrow but delivers one more chunk through `onChunk`:

```ts
    } catch (error) {
        logger.error("Error streaming OpenAI response:", error);
        onChunk(`[Error: ${error instanceof Error
            ? error.message : String(error)}]`);
    }
```

```ts
    } catch (error) {
        logger.error("Error generating Gemini content stream:", error);
        const errorMessage = error instanceof Error
            ? error.message : "An unknown error occurred.";
        onChunk(`Sorry, an error occurred with the Gemini API: ${errorMessage}`);
    }
```

The network is parametrized: the OpenAI path takes the outcome of
`fetchWithRetry` (a rejection, or a response with status/error text and an
optional body, the body being the sequence of decoded reads possibly ending
in a read error), and a JSON-extraction function standing for
`JSON.parse` + `choices?.[0]?.delta?.content || choices?.[0]?.text`
(returning `none` when `JSON.parse` throws); the Gemini path takes the
outcome of client construction and of `generateContentStream` (the streamed
texts possibly ending in a mid-stream error).  The embedded functions return
the list of chunks passed to `onChunk`, in order; both always return — the
model has no throw outcome, as in the source. -/

/-- `error instanceof Error ? error.message : String(error)`. -/
def errorToDisplay : JsError → List Char
  | .exn m => m
  | .response _ => "[object Response]".toList
  | .other => "[object Object]".toList

/-- `error instanceof Error ? error.message : 'An unknown error
occurred.'`. -/
def errorToDisplayGemini : JsError → List Char
  | .exn m => m
  | .response _ => "An unknown error occurred.".toList
  | .other => "An unknown error occurred.".toList

/-- The literal `'[Error: '`. -/
def errOpen : List Char := "[Error: ".toList

/-- The chunk `[Error: <m>]` delivered by the OpenAI-path catch. -/
def bracketedError (m : List Char) : List Char := errOpen ++ m ++ [']']

/-- The literal `'Sorry, an error occurred with the Gemini API: '`. -/
def geminiErrPre : List Char :=
  "Sorry, an error occurred with the Gemini API: ".toList

/-- The chunk delivered by the Gemini-path catch. -/
def geminiErrorChunk (e : JsError) : List Char :=
  geminiErrPre ++ errorToDisplayGemini e

/-- The literal `'OpenAI API Error: '`. -/
def openAIErrPre : List Char := "OpenAI API Error: ".toList

/-- The literal `' - '`. -/
def statusTextSep : List Char := " - ".toList

/-- The message of the error thrown on a non-2xx response:
`OpenAI API Error: ${status} - ${errorText}`. -/
def openAIApiErrorMsg (status : Nat) (errorText : List Char) : List Char :=
  openAIErrPre ++ (Nat.repr status).toList ++ statusTextSep ++ errorText

/-- The message of the error thrown on a null body. -/
def nullBodyMsg : List Char := "Response body is null".toList

/-- The literal `'data: '`. -/
def dataTag : List Char := "data: ".toList

/-- The literal `'[DONE]'`. -/
def doneMarker : List Char := "[DONE]".toList

/-- Outcome of `fetchWithRetry` as the streaming function consumes it.
`body = none` models a null response body; otherwise the decoded reads in
order, with an optional read rejection after them. -/
structure FetchResponse where
  ok : Bool
  status : Nat
  errorText : List Char
  body : Option (List (List Char) × Option JsError)

/-- The `for (const line of lines)` loop over the complete lines of one
read: keep `data: `-framed lines, stop everything at `[DONE]` (the `Bool`
result), extract the delta via `parse` and emit non-empty content; malformed
JSON (`parse` = `none`) is ignored. -/
def processLines (parse : List Char → Option (Option (List Char))) :
    List (List Char) → List (List Char) × Bool
  | [] => ([], false)
  | line :: rest =>
      let trimmed := jsTrim line
      if dataTag.isPrefixOf trimmed then
        let data := trimmed.drop 6
        if data = doneMarker then ([], true)
        else
          let emitted :=
            match parse data with
            | none => []
            | some none => []
            | some (some content) =>
                if content.isEmpty then [] else [content]
          let res := processLines parse rest
          (emitted ++ res.1, res.2)
      else processLines parse rest

/-- The `while (true)` read loop with its carry-over `buffer`: split the
buffered text on newlines, keep the trailing partial line, process the
complete ones, return at `[DONE]`; when the reads are exhausted a pending
read error is caught by the surrounding catch, appending the bracketed error
chunk. -/
def processReads (parse : List Char → Option (Option (List Char)))
    (readError : Option JsError) :
    List (List Char) → List Char → List (List Char)
  | [], _ =>
      match readError with
      | none => []
      | some e => [bracketedError (errorToDisplay e)]
  | r :: rest, buffer =>
      let pieces := (buffer ++ r).splitOn '\n'
      let buffer2 := pieces.getLast?.getD []
      let res := processLines parse pieces.dropLast
      if res.2 then res.1
      else res.1 ++ processReads parse readError rest buffer2

/-- `streamOpenAIChatResponse`: the chunks delivered to `onChunk`, in
order. -/
def streamOpenAIChatResponse (fetchResult : Except JsError FetchResponse)
    (parse : List Char → Option (Option (List Char))) :
    List (List Char) :=
  match fetchResult with
  | .error e => [bracketedError (errorToDisplay e)]
  | .ok resp =>
      if resp.ok = false then
        [bracketedError (errorToDisplay
          (.exn (openAIApiErrorMsg resp.status resp.errorText)))]
      else
        match resp.body with
        | none => [bracketedError (errorToDisplay (.exn nullBodyMsg))]
        | some (reads, readError) => processReads parse readError reads []

/-- The `for await (const chunk of responseStream)` loop: emit every chunk
whose `text` is present and non-empty. -/
def emittedTexts (cs : List (Option (List Char))) : List (List Char) :=
  cs.filterMap (fun c =>
    match c with
    | some t => if t.isEmpty then none else some t
    | none => none)

/-- `streamGeminiChatResponse`: the chunks delivered to `onChunk`, in order.
`clientResult` is the outcome of `getAiClient`; `streamResult` the outcome
of the retried `generateContentStream` call (streamed texts, optionally
followed by a mid-stream error). -/
def streamGeminiChatResponse (clientResult : Except JsError Unit)
    (history : List Message)
    (streamResult :
      Except JsError (List (Option (List Char)) × Option JsError)) :
    List (List Char) :=
  match clientResult with
  | .error e => [geminiErrorChunk e]
  | .ok _ =>
      let contents := normalizeGeminiHistory history
      if contents.length = 0 then []
      else
        match streamResult with
        | .error e => [geminiErrorChunk e]
        | .ok (cs, streamError) =>
            let emitted := emittedTexts cs
            match streamError with
            | none => emitted
            | some e => emitted ++ [geminiErrorChunk e]

/-- **C9 — counterexample.** On the Gemini path a failing generation call
with a one-message history delivers the single terminal chunk
`Sorry, an error occurred with the Gemini API: boom` — which does not carry
the bracketed `[Error: ...]` marker the claim requires of both paths. -/
theorem streamGemini_error_chunk_not_bracketed :
    streamGeminiChatResponse (.ok ()) [msgU1] (.error fatalErr) =
      [geminiErrPre ++ ['b', 'o', 'o', 'm']] ∧
    errOpen.isPrefixOf (geminiErrPre ++ ['b', 'o', 'o', 'm']) = false ∧
    (geminiErrPre ++ ['b', 'o', 'o', 'm']).headD ' ' ≠ '[' := by
  refine ⟨by decide, by decide, by decide⟩

/-- **C9 (amended).** When generation fails, neither streaming path throws
to the caller: each delivers exactly one terminal text chunk describing the
failure, after any chunks already delivered, and completes normally.  The
OpenAI-compatible path uses the bracketed `[Error: <message>]` form — for a
rejected fetch, a non-2xx response, a null body, and a mid-stream read error
alike — while the Gemini path uses the unbracketed
`Sorry, an error occurred with the Gemini API: <message>` form, for a failed
client construction, a failed stream call, and a mid-stream error alike. -/
theorem streamChat_error_terminal_chunk :
    (∀ (parse : List Char → Option (Option (List Char))) (e : JsError),
        streamOpenAIChatResponse (.error e) parse =
          [bracketedError (errorToDisplay e)]) ∧
    (∀ (parse : List Char → Option (Option (List Char)))
        (resp : FetchResponse), resp.ok = false →
        streamOpenAIChatResponse (.ok resp) parse =
          [bracketedError (errorToDisplay
            (.exn (openAIApiErrorMsg resp.status resp.errorText)))]) ∧
    (∀ (parse : List Char → Option (Option (List Char))) (st : Nat)
        (et : List Char),
        streamOpenAIChatResponse (.ok ⟨true, st, et, none⟩) parse =
          [bracketedError (errorToDisplay (.exn nullBodyMsg))]) ∧
    (∀ (parse : List Char → Option (Option (List Char))) (st : Nat)
        (et : List Char) (e : JsError),
        streamOpenAIChatResponse (.ok ⟨true, st, et, some ([], some e)⟩)
          parse = [bracketedError (errorToDisplay e)]) ∧
    (∀ (history : List Message) (sr :
        Except JsError (List (Option (List Char)) × Option JsError))
        (e : JsError),
        streamGeminiChatResponse (.error e) history sr =
          [geminiErrorChunk e]) ∧
    (∀ (history : List Message) (e : JsError),
        normalizeGeminiHistory history ≠ [] →
        streamGeminiChatResponse (.ok ()) history (.error e) =
          [geminiErrorChunk e]) ∧
    (∀ (history : List Message) (cs : List (Option (List Char)))
        (e : JsError), normalizeGeminiHistory history ≠ [] →
        streamGeminiChatResponse (.ok ()) history (.ok (cs, some e)) =
          emittedTexts cs ++ [geminiErrorChunk e]) := by
  refine ⟨fun parse e => rfl, ?_, fun parse st et => rfl,
    fun parse st et e => rfl, fun history sr e => rfl, ?_, ?_⟩
  · intro parse resp hok
    simp [streamOpenAIChatResponse, hok]
  · intro history e hne
    unfold streamGeminiChatResponse
    rw [if_neg (fun hc => hne (List.length_eq_zero.mp hc))]
  · intro history cs e hne
    unfold streamGeminiChatResponse
    rw [if_neg (fun hc => hne (List.length_eq_zero.mp hc))]

/-- Witness for the amended C9 at concrete inputs: a non-2xx response on the
OpenAI path and a failed stream call plus a mid-stream failure on the Gemini
path. -/
theorem streamChat_error_terminal_chunk_witness :
    streamOpenAIChatResponse
        (.ok ⟨false, 500, ['n', 'o'], none⟩) (fun _ => none) =
      [bracketedError (errorToDisplay
        (.exn (openAIApiErrorMsg 500 ['n', 'o'])))] ∧
    streamGeminiChatResponse (.ok ()) [msgU1] (.error fatalErr) =
      [geminiErrorChunk fatalErr] ∧
    streamGeminiChatResponse (.ok ()) [msgU1]
        (.ok ([some ['o', 'k']], some fatalErr)) =
      emittedTexts [some ['o', 'k']] ++ [geminiErrorChunk fatalErr] :=
  ⟨streamChat_error_terminal_chunk.2.1 (fun _ => none)
      ⟨false, 500, ['n', 'o'], none⟩ rfl,
   streamChat_error_terminal_chunk.2.2.2.2.2.1 [msgU1] fatalErr (by decide),
   streamChat_error_terminal_chunk.2.2.2.2.2.2 [msgU1] [some ['o', 'k']]
     fatalErr (by decide)⟩

end AINexus
